import Mathlib

/-!
Verification of the resumable tailing core of stern (src/stern/tail.go).

The definitions below are shallow embeddings of the functions of tail.go.
Go strings are modelled as Lean strings (lists of characters); every slice
boundary taken by the code sits next to a single-byte ASCII rune (the dot,
the space, or an ASCII digit), so the byte indices used by the Go code
coincide with character indices of the model at every point the code cuts
a string.  Go machine integers (line counters) are modelled as Int; the
counters grow by one per observed line and never approach the 64-bit range.
-/

namespace Stern

/-- Model of Go strings.IndexRune specialised to the single-byte runes used
by tail.go: index of the first occurrence of c, none standing for the Go
result -1. -/
def indexOfRune (c : Char) : List Char → Option Nat
  | [] => none
  | x :: xs => if x = c then some 0 else (indexOfRune c xs).map (fun i => i + 1)

/-- The scanning loop of removeSubsecond in tail.go: starting at index i it
walks the rest of the string and records in last the index of the most
recent decimal digit seen.  unicode.IsDigit applied to a single byte holds
exactly for the ASCII digits, which is Char.isDigit on the model. -/
def lastDigitFrom : List Char → Nat → Nat → Nat
  | [], _, last => last
  | x :: xs, i, last => lastDigitFrom xs (i + 1) (if x.isDigit then i else last)

/-- removeSubsecond from tail.go: removes the subsecond of the timestamp,
converting RFC3339Nano to RFC3339.  It finds the first dot, then the last
digit at or after the dot, and drops everything from the dot through that
digit; when there is no dot, or no digit after it (the sentinel last value
0), the string is returned unchanged. -/
def removeSubsecond (timestamp : String) : String :=
  match indexOfRune '.' timestamp.data with
  | none => timestamp
  | some dot =>
    let last := lastDigitFrom (timestamp.data.drop dot) dot 0
    if last = 0 then timestamp
    else String.mk (timestamp.data.take dot ++ timestamp.data.drop (last + 1))

/-- splitLogLine from tail.go: splits a raw log line on its first space into
timestamp and content; a line without a space fails with the
missing-timestamp error. -/
def splitLogLine (line : String) : Except String (String × String) :=
  match indexOfRune ' ' line.data with
  | none => Except.error "missing timestamp"
  | some idx =>
    Except.ok (String.mk (line.data.take idx), String.mk (line.data.drop (idx + 1)))

/-- ResumeRequest from tail.go. -/
structure ResumeRequest where
  Timestamp : String
  LinesToSkip : Int
  deriving DecidableEq, Repr

/-- ResumeRequest.shouldSkip from tail.go.  The Go receiver is a pointer that
may be nil and whose LinesToSkip field is decremented in place, so the model
takes an Option and returns the updated receiver next to the boolean. -/
def ResumeRequest.shouldSkip (r : Option ResumeRequest) (timestamp : String) :
    Bool × Option ResumeRequest :=
  match r with
  | none => (false, none)
  | some rr =>
    if rr.Timestamp = "" then (false, some rr)
    else if rr.Timestamp ≠ timestamp then (false, some rr)
    else if rr.LinesToSkip ≤ 0 then (false, some rr)
    else (true, some { rr with LinesToSkip := rr.LinesToSkip - 1 })

/-- The t.last field of Tail in tail.go: the last RFC3339 timestamp seen and
the number of lines seen during that timestamp. -/
structure LastState where
  timestamp : String
  lines : Int
  deriving DecidableEq, Repr

/-- Tail.rememberLastTimestamp from tail.go. -/
def rememberLastTimestamp (s : LastState) (timestamp : String) : LastState :=
  if s.timestamp = timestamp then { s with lines := s.lines + 1 }
  else { timestamp := timestamp, lines := 1 }

/-- Tail.GetResumeRequest from tail.go. -/
def GetResumeRequest (s : LastState) : Option ResumeRequest :=
  if s.timestamp = "" then none
  else some { Timestamp := s.timestamp, LinesToSkip := s.lines }

/-- The fields of TailOptions (defined in options.go, outside the embedded
sources) that Start and Resume of tail.go read or write.  The parsed time
type of SinceTime is abstract. -/
structure TailOptionsLog (τ : Type) where
  Follow : Bool
  SinceSeconds : Option Int
  SinceTime : Option τ
  TailLines : Option Int

/-- The corev1.PodLogOptions fields that Start of tail.go fills in for
GetLogs. -/
structure PodLogOptions (τ : Type) where
  Follow : Bool
  Timestamps : Bool
  Container : String
  SinceSeconds : Option Int
  SinceTime : Option τ
  TailLines : Option Int

/-- ResumeRequest.sinceTime from tail.go: parses r.Timestamp as RFC3339 and
wraps it.  time.Parse belongs to the Go standard library, so the model
abstracts the parser as a function returning none on a parse error. -/
def ResumeRequest.sinceTime {τ : Type} (parse : String → Option τ)
    (r : ResumeRequest) : Option τ :=
  parse r.Timestamp

/-- Tail.Resume from tail.go, as a transformer of the option fields and the
installed resume request.  The boolean records whether the
failed-to-resume note was written to errOut before falling back to a plain
Start; on success the request is installed, SinceTime is set and
SinceSeconds and TailLines are cleared. -/
def Resume {τ : Type} (parse : String → Option τ) (opts : TailOptionsLog τ)
    (installed : Option ResumeRequest) (resumeRequest : ResumeRequest) :
    TailOptionsLog τ × Option ResumeRequest × Bool :=
  match ResumeRequest.sinceTime parse resumeRequest with
  | none => (opts, installed, true)
  | some sinceTime =>
    ({ opts with SinceTime := some sinceTime, SinceSeconds := none, TailLines := none },
     some resumeRequest, false)

/-- The PodLogOptions value Start of tail.go passes to GetLogs, built from
the option fields (Timestamps is hard-coded to true). -/
def startPodLogOptions {τ : Type} (containerName : String) (o : TailOptionsLog τ) :
    PodLogOptions τ :=
  { Follow := o.Follow, Timestamps := true, Container := containerName,
    SinceSeconds := o.SinceSeconds, SinceTime := o.SinceTime, TailLines := o.TailLines }

/-- The observable effects of Tail.consumeLine, listed in program order:
observe is the call to rememberLastTimestamp, emitOtel the call to
emitOTelLog, print a write through Print, and printNoHi a write through
PrintWithoutHighlight. -/
inductive Event where
  | observe (timestamp : String)
  | emitOtel (content : String)
  | print (content : String)
  | printNoHi (content : String)
  deriving DecidableEq, Repr

/-- Recognises the observe event. -/
def Event.isObserve : Event → Bool
  | Event.observe _ => true
  | _ => false

/-- The fields of Tail and TailOptions consulted by consumeLine.  IsExclude,
IsInclude and UpdateTimezoneAndFormat live in options.go outside the
embedded sources, so they appear as abstract functions. -/
structure TailModelOptions where
  isExclude : String → Bool
  isInclude : String → Bool
  timestamps : Bool
  updateTimezoneAndFormat : String → Except String String
  otelEnabled : Bool
  otelExporterPresent : Bool

/-- The mutable per-Tail state consumeLine touches. -/
structure TailState where
  last : LastState
  resumeRequest : Option ResumeRequest
  deriving DecidableEq, Repr

/-- Tail.consumeLine from tail.go, returning the updated state and the list
of effects in the order the code performs them.  A line that fails to split
is written out annotated with the error; otherwise the canonical timestamp
is remembered, the resume request is consulted, the content filters run,
and the line is forwarded to the sinks (the OTel record timestamp, taken
from time.Parse or the wall clock, carries no information the claims
consult and is omitted from the event). -/
def consumeLine (o : TailModelOptions) (st : TailState) (line : String) :
    TailState × List Event :=
  match splitLogLine line with
  | Except.error e => (st, [Event.printNoHi ("[" ++ e ++ "] " ++ line)])
  | Except.ok (rfc3339Nano, content) =>
    let rfc3339 := removeSubsecond rfc3339Nano
    let last := rememberLastTimestamp st.last rfc3339
    let sk := ResumeRequest.shouldSkip st.resumeRequest rfc3339
    let st2 : TailState := ⟨last, sk.2⟩
    if sk.1 then (st2, [Event.observe rfc3339])
    else if o.isExclude content || !o.isInclude content then
      (st2, [Event.observe rfc3339])
    else
      let otelEvs := if o.otelEnabled && o.otelExporterPresent then
        [Event.emitOtel content] else []
      if o.timestamps then
        match o.updateTimezoneAndFormat rfc3339Nano with
        | Except.error e2 =>
          (st2, Event.observe rfc3339 ::
            (otelEvs ++ [Event.printNoHi ("[" ++ e2 ++ "] " ++ line)]))
        | Except.ok updatedTs =>
          (st2, Event.observe rfc3339 ::
            (otelEvs ++ (if o.otelEnabled then []
              else [Event.print (updatedTs ++ " " ++ content)])))
      else
        (st2, Event.observe rfc3339 ::
          (otelEvs ++ (if o.otelEnabled then [] else [Event.print content])))

/-- Runs shouldSkip across a list of canonical timestamps, threading the
request state and collecting the per-line decisions. -/
def runShouldSkip (r : Option ResumeRequest) :
    List String → List Bool × Option ResumeRequest
  | [] => ([], r)
  | ts :: rest =>
    let sk := ResumeRequest.shouldSkip r ts
    let later := runShouldSkip sk.2 rest
    (sk.1 :: later.1, later.2)

/-- Repeated rememberLastTimestamp over a list of observed canonical
timestamps. -/
def observeAll (s : LastState) (l : List String) : LastState :=
  l.foldl rememberLastTimestamp s

/-- The sequence of watermark states after each observation of a list of
canonical timestamps. -/
def observeTrace (s : LastState) : List String → List LastState
  | [] => []
  | ts :: rest =>
    let s2 := rememberLastTimestamp s ts
    s2 :: observeTrace s2 rest

/-- A filter configuration that accepts every line with plain console
output; it instantiates the abstract collaborator functions on concrete
runs. -/
def passAllOptions : TailModelOptions :=
  { isExclude := fun _ => false, isInclude := fun _ => true, timestamps := false,
    updateTimezoneAndFormat := fun s => Except.ok s,
    otelEnabled := false, otelExporterPresent := false }

/-- The state of a freshly created Tail: empty stored timestamp, zero lines
seen, no installed resume request. -/
def initialTailState : TailState := ⟨⟨"", 0⟩, none⟩

/-- Lexicographic comparison of character sequences.  Canonical
second-precision RFC3339 UTC timestamps all share one shape, so their
chronological order coincides with this lexicographic order; it serves as
the timestamp order of the specification. -/
def charListLe : List Char → List Char → Bool
  | [], _ => true
  | _ :: _, [] => false
  | a :: as, b :: bs => if a = b then charListLe as bs else decide (a < b)

/-- Timestamp order on canonical timestamp strings. -/
def tsLe (a b : String) : Prop := charListLe a.data b.data = true

/-- Strict timestamp order on canonical timestamp strings. -/
def tsLt (a b : String) : Prop := tsLe a b ∧ a ≠ b

instance (a b : String) : Decidable (tsLe a b) := by
  unfold tsLe
  infer_instance

instance (a b : String) : Decidable (tsLt a b) := by
  unfold tsLt
  infer_instance

/-! ## Helper lemmas -/

/-- shouldSkip on a non-null request whose nonempty timestamp matches and
whose skip budget is positive: skip and decrement. -/
lemma shouldSkip_some_true (rr : ResumeRequest) (ts : String)
    (h1 : rr.Timestamp ≠ "") (h2 : rr.Timestamp = ts) (h3 : 0 < rr.LinesToSkip) :
    ResumeRequest.shouldSkip (some rr) ts =
      (true, some ⟨rr.Timestamp, rr.LinesToSkip - 1⟩) := by
  subst h2
  simp only [ResumeRequest.shouldSkip]
  rw [if_neg h1, if_neg (by simp), if_neg (by omega)]

/-- shouldSkip on a non-null request refuses when the timestamp is empty,
differs, or the budget is exhausted, leaving the request unchanged. -/
lemma shouldSkip_some_false (rr : ResumeRequest) (ts : String)
    (h : rr.Timestamp = "" ∨ rr.Timestamp ≠ ts ∨ rr.LinesToSkip ≤ 0) :
    ResumeRequest.shouldSkip (some rr) ts = (false, some rr) := by
  simp only [ResumeRequest.shouldSkip]
  rcases h with h | h | h
  · rw [if_pos h]
  · by_cases h1 : rr.Timestamp = ""
    · rw [if_pos h1]
    · rw [if_neg h1, if_pos h]
  · by_cases h1 : rr.Timestamp = ""
    · rw [if_pos h1]
    · by_cases h2 : rr.Timestamp ≠ ts
      · rw [if_neg h1, if_pos h2]
      · rw [if_neg h1, if_neg h2, if_pos h]

/-- The timestamp stored by rememberLastTimestamp is always the observed
one. -/
lemma rememberLastTimestamp_timestamp (s : LastState) (ts : String) :
    (rememberLastTimestamp s ts).timestamp = ts := by
  unfold rememberLastTimestamp
  split
  · next h => exact h
  · rfl

/-- The watermark trace projects to the observed timestamp sequence. -/
lemma observeTrace_map_timestamp : ∀ (l : List String) (s : LastState),
    (observeTrace s l).map LastState.timestamp = l := by
  intro l
  induction l with
  | nil => intro s; rfl
  | cons ts rest ih =>
    intro s
    simp only [observeTrace, List.map_cons, ih]
    rw [rememberLastTimestamp_timestamp]

/-- Observing a run of the stored timestamp adds its length to the line
count. -/
lemma observeAll_replicate : ∀ (n : Nat) (s : LastState),
    observeAll s (List.replicate n s.timestamp) = ⟨s.timestamp, s.lines + (n : Int)⟩ := by
  intro n
  induction n with
  | zero => intro s; simp [observeAll]
  | succ n ih =>
    intro s
    rw [List.replicate_succ, observeAll, List.foldl_cons]
    have h1 : rememberLastTimestamp s s.timestamp = ⟨s.timestamp, s.lines + 1⟩ := by
      simp [rememberLastTimestamp]
    rw [h1]
    have h2 := ih ⟨s.timestamp, s.lines + 1⟩
    rw [observeAll] at h2
    rw [h2]
    congr 1
    push_cast
    ring

/-- indexOfRune finds nothing iff the rune is absent. -/
lemma indexOfRune_eq_none (c : Char) : ∀ l : List Char,
    indexOfRune c l = none ↔ ∀ x ∈ l, x ≠ c := by
  intro l
  induction l with
  | nil => simp [indexOfRune]
  | cons x xs ih =>
    simp only [indexOfRune]
    by_cases h : x = c
    · simp [h]
    · simp [h, Option.map_eq_none', ih]

/-- What a successful indexOfRune search guarantees: the index is in range,
no earlier character matches, and the character at the index is the rune. -/
lemma indexOfRune_spec (c : Char) : ∀ (l : List Char) (i : Nat),
    indexOfRune c l = some i →
      i < l.length ∧ (∀ x ∈ l.take i, x ≠ c) ∧ l.drop i = c :: l.drop (i + 1) := by
  intro l
  induction l with
  | nil => intro i h; simp [indexOfRune] at h
  | cons x xs ih =>
    intro i h
    simp only [indexOfRune] at h
    by_cases hx : x = c
    · rw [if_pos hx] at h
      cases h
      subst hx
      exact ⟨by simp, by simp, by simp⟩
    · rw [if_neg hx] at h
      cases hj : indexOfRune c xs with
      | none => rw [hj] at h; simp at h
      | some j =>
        rw [hj] at h
        simp only [Option.map_some', Option.some.injEq] at h
        subst h
        obtain ⟨h1, h2, h3⟩ := ih j hj
        refine ⟨by simpa using Nat.succ_lt_succ h1, ?_, ?_⟩
        · intro y hy
          rw [List.take_succ_cons] at hy
          rcases List.mem_cons.mp hy with hy | hy
          · subst hy; exact hx
          · exact h2 y hy
        · simpa [List.drop_succ_cons] using h3


/-- indexOfRune on the head. -/
lemma indexOfRune_cons_self (c : Char) (l : List Char) :
    indexOfRune c (c :: l) = some 0 := by
  simp [indexOfRune]

/-- indexOfRune skips a rune-free block. -/
lemma indexOfRune_append (c : Char) : ∀ (A B : List Char), (∀ x ∈ A, x ≠ c) →
    indexOfRune c (A ++ B) = (indexOfRune c B).map (fun i => i + A.length) := by
  intro A
  induction A with
  | nil => intro B _; simp
  | cons a as ih =>
    intro B hA
    have ha : a ≠ c := hA a (by simp)
    simp only [List.cons_append, indexOfRune, if_neg ha, List.append_eq]
    rw [ih B (fun x hx => hA x (by simp [hx]))]
    cases indexOfRune c B with
    | none => simp
    | some j =>
      simp only [Option.map_some', Option.some.injEq, List.length_cons]
      omega

/-- The digit-scanning loop keeps its accumulator over a digit-free block. -/
lemma lastDigitFrom_no_digit : ∀ (l : List Char) (i a : Nat),
    (∀ x ∈ l, ¬x.isDigit) → lastDigitFrom l i a = a := by
  intro l
  induction l with
  | nil => intro i a _; rfl
  | cons x xs ih =>
    intro i a h
    have hx : ¬x.isDigit := h x (by simp)
    simp only [lastDigitFrom]
    rw [if_neg hx]
    exact ih (i + 1) a (fun y hy => h y (by simp [hy]))

/-- The digit-scanning loop splits across an append. -/
lemma lastDigitFrom_append : ∀ (l1 l2 : List Char) (i a : Nat),
    lastDigitFrom (l1 ++ l2) i a =
      lastDigitFrom l2 (i + l1.length) (lastDigitFrom l1 i a) := by
  intro l1
  induction l1 with
  | nil => intro l2 i a; simp [lastDigitFrom]
  | cons x xs ih =>
    intro l2 i a
    simp only [List.cons_append, lastDigitFrom, List.append_eq]
    rw [ih]
    congr 1
    simp only [List.length_cons]
    omega

/-- The digit-scanning loop either keeps its accumulator, with the block
digit-free, or returns the position of the final digit of the block, with
no digit after it. -/
lemma lastDigitFrom_spec : ∀ (l : List Char) (i a : Nat),
    (lastDigitFrom l i a = a ∧ ∀ x ∈ l, ¬x.isDigit)
  ∨ (∃ k, k < l.length ∧ lastDigitFrom l i a = i + k ∧
      (∀ x ∈ l.drop (k + 1), ¬x.isDigit)) := by
  intro l
  induction l with
  | nil => intro i a; exact Or.inl ⟨rfl, by simp⟩
  | cons x xs ih =>
    intro i a
    by_cases hx : x.isDigit
    · rcases ih (i + 1) i with ⟨heq, hnd⟩ | ⟨k, hk, heq, hnd⟩
      · refine Or.inr ⟨0, by simp, ?_, ?_⟩
        · simp only [lastDigitFrom]
          rw [if_pos hx, heq]
          omega
        · simpa using hnd
      · refine Or.inr ⟨k + 1, by simpa using Nat.succ_lt_succ hk, ?_, ?_⟩
        · simp only [lastDigitFrom]
          rw [if_pos hx, heq]
          omega
        · simpa [List.drop_succ_cons] using hnd
    · rcases ih (i + 1) a with ⟨heq, hnd⟩ | ⟨k, hk, heq, hnd⟩
      · refine Or.inl ⟨?_, ?_⟩
        · simp only [lastDigitFrom]
          rw [if_neg hx, heq]
        · intro y hy
          rcases List.mem_cons.mp hy with hy | hy
          · subst hy; exact hx
          · exact hnd y hy
      · refine Or.inr ⟨k + 1, by simpa using Nat.succ_lt_succ hk, ?_, ?_⟩
        · simp only [lastDigitFrom]
          rw [if_neg hx, heq]
          omega
        · simpa [List.drop_succ_cons] using hnd

/-- A string whose characters split into a dot-free block followed by a
digit-free block is a fixed point of removeSubsecond. -/
lemma removeSubsecond_fixed (A B : List Char)
    (hA : ∀ x ∈ A, x ≠ '.') (hB : ∀ x ∈ B, ¬x.isDigit) :
    removeSubsecond (String.mk (A ++ B)) = String.mk (A ++ B) := by
  unfold removeSubsecond
  rw [show (String.mk (A ++ B)).data = A ++ B from rfl]
  rw [indexOfRune_append '.' A B hA]
  cases hj : indexOfRune '.' B with
  | none => simp
  | some j =>
    simp only [Option.map_some']
    have hdrop : (A ++ B).drop (j + A.length) = B.drop j := by
      rw [Nat.add_comm j A.length, List.drop_append]
    have h0 : lastDigitFrom ((A ++ B).drop (j + A.length)) (j + A.length) 0 = 0 := by
      rw [hdrop]
      exact lastDigitFrom_no_digit _ _ _ (fun x hx => hB x (List.drop_subset _ _ hx))
    simp [h0]

/-- removeSubsecond is the identity on strings without a dot. -/
lemma removeSubsecond_no_dot (t : String) (h : ∀ x ∈ t.data, x ≠ '.') :
    removeSubsecond t = t := by
  unfold removeSubsecond
  rw [(indexOfRune_eq_none '.' t.data).mpr h]

/-- removeSubsecond is idempotent on every string. -/
lemma removeSubsecond_idem (t : String) :
    removeSubsecond (removeSubsecond t) = removeSubsecond t := by
  rcases hdot : indexOfRune '.' t.data with _ | dot
  · have h : removeSubsecond t = t := by
      unfold removeSubsecond; rw [hdot]
    rw [h]; exact h
  · by_cases hlast : lastDigitFrom (t.data.drop dot) dot 0 = 0
    · have h : removeSubsecond t = t := by
        unfold removeSubsecond; rw [hdot]; simp [hlast]
      rw [h]; exact h
    · obtain ⟨hlt, htake, hdropc⟩ := indexOfRune_spec '.' t.data dot hdot
      have h : removeSubsecond t =
          String.mk (t.data.take dot ++
            t.data.drop (lastDigitFrom (t.data.drop dot) dot 0 + 1)) := by
        unfold removeSubsecond; rw [hdot]; simp [hlast]
      rcases lastDigitFrom_spec (t.data.drop dot) dot 0 with ⟨heq, _⟩ | ⟨k, hk, heq, hnd⟩
      · exact absurd heq hlast
      · have hBnd : ∀ x ∈ t.data.drop (dot + k + 1), ¬x.isDigit := by
          intro x hx
          apply hnd
          rw [List.drop_drop]
          rw [show dot + (k + 1) = dot + k + 1 from by omega]
          exact hx
        rw [h, heq]
        exact removeSubsecond_fixed (t.data.take dot) (t.data.drop (dot + k + 1))
          htake hBnd

/-- splitLogLine fails exactly on space-free lines. -/
lemma splitLogLine_no_space (line : String) (h : ∀ x ∈ line.data, x ≠ ' ') :
    splitLogLine line = Except.error "missing timestamp" := by
  unfold splitLogLine
  rw [(indexOfRune_eq_none ' ' line.data).mpr h]

/-- splitLogLine cuts at the first space. -/
lemma splitLogLine_split (line : String) (A B : List Char)
    (hdata : line.data = A ++ ' ' :: B) (hA : ∀ x ∈ A, x ≠ ' ') :
    splitLogLine line = Except.ok (String.mk A, String.mk B) := by
  have hidx : indexOfRune ' ' line.data = some A.length := by
    rw [hdata, indexOfRune_append ' ' A (' ' :: B) hA, indexOfRune_cons_self]
    simp
  unfold splitLogLine
  rw [hidx]
  have h1 : line.data.take A.length = A := by
    rw [hdata]; exact List.take_left A (' ' :: B)
  have h2 : line.data.drop (A.length + 1) = B := by
    rw [hdata, List.drop_append]
    rfl
  show Except.ok (String.mk (line.data.take A.length),
    String.mk (line.data.drop (A.length + 1))) =
      Except.ok (String.mk A, String.mk B)
  rw [h1, h2]

/-! ## Claims -/

/-- Claim C1 counterexample: for the resume request with empty timestamp and
one line to skip and the empty canonical timestamp, the conditions of the
claim hold (non-null request, request timestamp equal to the canonical
timestamp, positive LinesToSkip) yet shouldSkip returns false and leaves the
request unchanged. -/
theorem claim1_counterexample :
    (some (⟨"", 1⟩ : ResumeRequest) ≠ none)
  ∧ (⟨"", 1⟩ : ResumeRequest).Timestamp = ""
  ∧ (0 : Int) < (⟨"", 1⟩ : ResumeRequest).LinesToSkip
  ∧ ResumeRequest.shouldSkip (some ⟨"", 1⟩) "" = (false, some ⟨"", 1⟩) := by
  decide

/-- Claim C1 (amended): shouldSkip returns true and decrements LinesToSkip
iff the request is non-null, its timestamp is nonempty and equals the
canonical timestamp, and LinesToSkip is positive; otherwise it returns false
and leaves the request unchanged.  On the canonical timestamp sequence
A,A,A,B,B with a nonempty A distinct from B, an initial request for A with
two lines to skip drops exactly the first two lines. -/
theorem claim1_shouldSkip_spec (r : Option ResumeRequest) (ts A B : String)
    (hA : A ≠ "") (hAB : A ≠ B) :
    ((ResumeRequest.shouldSkip r ts).1 = true ↔
      ∃ rr, r = some rr ∧ rr.Timestamp ≠ "" ∧ rr.Timestamp = ts ∧ 0 < rr.LinesToSkip)
  ∧ ((ResumeRequest.shouldSkip r ts).1 = true →
      ∃ rr, r = some rr ∧
        (ResumeRequest.shouldSkip r ts).2 = some ⟨rr.Timestamp, rr.LinesToSkip - 1⟩)
  ∧ ((ResumeRequest.shouldSkip r ts).1 = false → (ResumeRequest.shouldSkip r ts).2 = r)
  ∧ (runShouldSkip (some ⟨A, 2⟩) [A, A, A, B, B]).1 =
      [true, true, false, false, false] := by
  refine ⟨?_, ?_, ?_, ?_⟩
  · cases r with
    | none => simp [ResumeRequest.shouldSkip]
    | some rr =>
      by_cases h1 : rr.Timestamp = ""
      · rw [shouldSkip_some_false rr ts (Or.inl h1)]
        simp [h1]
      · by_cases h2 : rr.Timestamp = ts
        · by_cases h3 : rr.LinesToSkip ≤ 0
          · rw [shouldSkip_some_false rr ts (Or.inr (Or.inr h3))]
            simp [h1, h2]
            omega
          · rw [shouldSkip_some_true rr ts h1 h2 (by omega)]
            subst h2
            simp [h1]
            omega
        · rw [shouldSkip_some_false rr ts (Or.inr (Or.inl h2))]
          simp [h2]
  · cases r with
    | none => simp [ResumeRequest.shouldSkip]
    | some rr =>
      by_cases h1 : rr.Timestamp = ""
      · rw [shouldSkip_some_false rr ts (Or.inl h1)]
        simp
      · by_cases h2 : rr.Timestamp = ts
        · by_cases h3 : rr.LinesToSkip ≤ 0
          · rw [shouldSkip_some_false rr ts (Or.inr (Or.inr h3))]
            simp
          · rw [shouldSkip_some_true rr ts h1 h2 (by omega)]
            intro _
            exact ⟨rr, rfl, rfl⟩
        · rw [shouldSkip_some_false rr ts (Or.inr (Or.inl h2))]
          simp
  · cases r with
    | none => intro _; rfl
    | some rr =>
      by_cases h1 : rr.Timestamp = ""
      · rw [shouldSkip_some_false rr ts (Or.inl h1)]
        intro _; rfl
      · by_cases h2 : rr.Timestamp = ts
        · by_cases h3 : rr.LinesToSkip ≤ 0
          · rw [shouldSkip_some_false rr ts (Or.inr (Or.inr h3))]
            intro _; rfl
          · rw [shouldSkip_some_true rr ts h1 h2 (by omega)]
            simp
        · rw [shouldSkip_some_false rr ts (Or.inr (Or.inl h2))]
          intro _; rfl
  · have hBA : B ≠ A := fun h => hAB h.symm
    simp [runShouldSkip, ResumeRequest.shouldSkip, hA, hBA]

/-- Claim C1 witness, at the request for A with two lines to skip. -/
theorem claim1_witness :
    ("A" : String) ≠ "" ∧ ("A" : String) ≠ "B"
  ∧ (runShouldSkip (some ⟨"A", 2⟩) ["A", "A", "A", "B", "B"]).1 =
      [true, true, false, false, false] :=
  ⟨by decide, by decide,
    (claim1_shouldSkip_spec (some ⟨"A", 2⟩) "A" "A" "B" (by decide) (by decide)).2.2.2⟩

/-- Claim C2: linesAtTimestamp is reset to 1 exactly when the observed
timestamp differs from the stored one, is incremented by 1 for each further
line at the same timestamp, and over a run of n identical timestamps grows
by exactly n, hence never decreases within a run. -/
theorem claim2_linesAtTimestamp (s : LastState) (ts : String) (n : Nat) :
    (s.timestamp ≠ ts → rememberLastTimestamp s ts = ⟨ts, 1⟩)
  ∧ (s.timestamp = ts → rememberLastTimestamp s ts = ⟨s.timestamp, s.lines + 1⟩)
  ∧ observeAll s (List.replicate n s.timestamp) = ⟨s.timestamp, s.lines + (n : Int)⟩ := by
  refine ⟨?_, ?_, observeAll_replicate n s⟩
  · intro h
    simp [rememberLastTimestamp, h]
  · intro h
    simp [rememberLastTimestamp, h]

/-- Claim C2 witness, on a stored state at timestamp A with two lines. -/
theorem claim2_witness :
    rememberLastTimestamp ⟨"A", 2⟩ "A" = ⟨"A", 2 + 1⟩
  ∧ rememberLastTimestamp ⟨"A", 2⟩ "B" = ⟨"B", 1⟩ :=
  ⟨(claim2_linesAtTimestamp ⟨"A", 2⟩ "A" 0).2.1 rfl,
   (claim2_linesAtTimestamp ⟨"A", 2⟩ "B" 0).1 (by decide)⟩

/-- Claim C3 counterexample: observing a later canonical timestamp and then
an earlier one makes the stored watermark timestamp strictly decrease, so
the stored timestamp is not monotone over arbitrary observation
sequences. -/
theorem claim3_counterexample :
    (observeTrace ⟨"", 0⟩ ["2024-01-02T03:04:06Z", "2024-01-02T03:04:05Z"]).map
        LastState.timestamp = ["2024-01-02T03:04:06Z", "2024-01-02T03:04:05Z"]
  ∧ tsLt "2024-01-02T03:04:05Z" "2024-01-02T03:04:06Z" := by
  constructor
  · rfl
  · decide

/-- Claim C3 (amended): the stored watermark timestamp always equals the
most recently observed canonical timestamp, so when the observed sequence is
pairwise non-decreasing the stored timestamps after each observation are
pairwise non-decreasing; the code does not itself order out-of-order
observations. -/
theorem claim3_watermark_monotone (s : LastState) (l : List String) :
    ((observeTrace s l).map LastState.timestamp = l)
  ∧ (List.Pairwise tsLe l →
      List.Pairwise (fun a b => tsLe a.timestamp b.timestamp) (observeTrace s l)) := by
  refine ⟨observeTrace_map_timestamp l s, ?_⟩
  intro hp
  rw [← observeTrace_map_timestamp l s] at hp
  exact (List.pairwise_map.mp hp)

/-- Claim C3 witness, on an increasing pair of observed timestamps. -/
theorem claim3_witness :
    List.Pairwise tsLe ["2024-01-02T03:04:05Z", "2024-01-02T03:04:06Z"]
  ∧ List.Pairwise (fun a b => tsLe a.timestamp b.timestamp)
      (observeTrace ⟨"", 0⟩ ["2024-01-02T03:04:05Z", "2024-01-02T03:04:06Z"]) :=
  ⟨by decide,
   (claim3_watermark_monotone ⟨"", 0⟩
      ["2024-01-02T03:04:05Z", "2024-01-02T03:04:06Z"]).2 (by decide)⟩

/-- Claim C9: a resume request whose timestamp is the empty string never
skips and is never mutated, for every incoming canonical timestamp, and a
nil request likewise never skips. -/
theorem claim9_empty_timestamp (r : ResumeRequest) (ts : String)
    (h : r.Timestamp = "") :
    ResumeRequest.shouldSkip (some r) ts = (false, some r)
  ∧ ResumeRequest.shouldSkip none ts = (false, none) := by
  constructor
  · simp [ResumeRequest.shouldSkip, h]
  · rfl

/-- Claim C9 witness, at an empty-timestamp request with five lines to skip
and the empty canonical timestamp. -/
theorem claim9_witness :
    (⟨"", 5⟩ : ResumeRequest).Timestamp = ""
  ∧ ResumeRequest.shouldSkip (some ⟨"", 5⟩) "" = (false, some ⟨"", 5⟩)
  ∧ ResumeRequest.shouldSkip none "" = (false, none) :=
  ⟨rfl, (claim9_empty_timestamp ⟨"", 5⟩ "" rfl).1,
   (claim9_empty_timestamp ⟨"", 5⟩ "" rfl).2⟩

/-- Claim C4: canonicalization is idempotent for every timestamp string,
and on the nanosecond example it gives the second-precision form, which a
second application leaves unchanged. -/
theorem claim4_canonicalize_idempotent :
    (∀ t : String, removeSubsecond (removeSubsecond t) = removeSubsecond t)
  ∧ removeSubsecond "2024-01-02T03:04:05.123456789Z" = "2024-01-02T03:04:05Z"
  ∧ removeSubsecond "2024-01-02T03:04:05Z" = "2024-01-02T03:04:05Z" :=
  ⟨removeSubsecond_idem, by decide, by decide⟩

/-- Claim C5 counterexample: on a timestamp carrying a fractional part and a
numeric timezone offset, the digits of the offset extend the digit scan, so
canonicalization drops the offset as well; the claim demands the offset be
left unchanged, which would give a different string. -/
theorem claim5_counterexample :
    removeSubsecond "2024-01-02T03:04:05.123+07:00" = "2024-01-02T03:04:05"
  ∧ removeSubsecond "2024-01-02T03:04:05.123+07:00" ≠ "2024-01-02T03:04:05+07:00" := by
  decide

/-- Claim C5 (amended): canonicalization locates the first dot and the last
digit anywhere at or after it, and drops everything from the dot through
that digit, leaving the characters before the dot and after that digit
unchanged; a string without a dot, or with no digit after its first dot, is
returned unchanged.  A trailing Z therefore survives, but the digits of a
numeric timezone offset following a fractional part extend the digit run,
so such an offset is removed together with the fraction. -/
theorem claim5_removeSubsecond_shape (t : String) (A B C : List Char) (d : Char) :
    ((∀ x ∈ t.data, x ≠ '.') → removeSubsecond t = t)
  ∧ (t.data = A ++ '.' :: B → (∀ x ∈ A, x ≠ '.') → (∀ x ∈ B, ¬x.isDigit) →
      removeSubsecond t = t)
  ∧ (t.data = A ++ '.' :: (B ++ d :: C) → (∀ x ∈ A, x ≠ '.') → d.isDigit →
      (∀ x ∈ C, ¬x.isDigit) → removeSubsecond t = String.mk (A ++ C)) := by
  refine ⟨removeSubsecond_no_dot t, ?_, ?_⟩
  · intro hdata hA hB
    unfold removeSubsecond
    rw [hdata, indexOfRune_append '.' A ('.' :: B) hA, indexOfRune_cons_self]
    simp only [Option.map_some', Nat.zero_add]
    have hdrop : (A ++ '.' :: B).drop A.length = '.' :: B := List.drop_left A ('.' :: B)
    rw [hdrop]
    have h0 : lastDigitFrom ('.' :: B) A.length 0 = 0 := by
      apply lastDigitFrom_no_digit
      intro x hx
      rcases List.mem_cons.mp hx with hx | hx
      · subst hx; decide
      · exact hB x hx
    rw [h0]
    simp
  · intro hdata hA hd hC
    unfold removeSubsecond
    rw [hdata, indexOfRune_append '.' A ('.' :: (B ++ d :: C)) hA, indexOfRune_cons_self]
    simp only [Option.map_some', Nat.zero_add]
    have hdrop : (A ++ '.' :: (B ++ d :: C)).drop A.length = '.' :: (B ++ d :: C) :=
      List.drop_left A ('.' :: (B ++ d :: C))
    rw [hdrop]
    have hlast : lastDigitFrom ('.' :: (B ++ d :: C)) A.length 0 =
        A.length + 1 + B.length := by
      show lastDigitFrom (B ++ d :: C) (A.length + 1)
        (if ('.' : Char).isDigit then A.length else 0) = A.length + 1 + B.length
      rw [if_neg (by decide)]
      rw [lastDigitFrom_append]
      show lastDigitFrom C (A.length + 1 + B.length + 1)
        (if d.isDigit then A.length + 1 + B.length
          else lastDigitFrom B (A.length + 1) 0) = A.length + 1 + B.length
      rw [if_pos hd]
      exact lastDigitFrom_no_digit C _ _ hC
    rw [hlast]
    rw [if_neg (by omega)]
    congr 1
    have htake : (A ++ '.' :: (B ++ d :: C)).take A.length = A :=
      List.take_left A ('.' :: (B ++ d :: C))
    rw [htake]
    congr 1
    rw [show A.length + 1 + B.length + 1 = A.length + (B.length + 2) from by omega]
    rw [List.drop_append]
    show (B ++ d :: C).drop (B.length + 1) = C
    rw [show B.length + 1 = B.length + 1 from rfl, List.drop_append]
    rfl

/-- Claim C5 witness: the nanosecond UTC example, decomposed around its
first dot and final fractional digit, canonicalizes to the second-precision
form with the Z suffix kept. -/
theorem claim5_witness :
    ("2024-01-02T03:04:05.123456789Z" : String).data =
      ("2024-01-02T03:04:05" : String).data ++ '.' ::
        (("12345678" : String).data ++ '9' :: ("Z" : String).data)
  ∧ removeSubsecond "2024-01-02T03:04:05.123456789Z" =
      String.mk (("2024-01-02T03:04:05" : String).data ++ ("Z" : String).data) :=
  ⟨by decide,
   (claim5_removeSubsecond_shape "2024-01-02T03:04:05.123456789Z"
      ("2024-01-02T03:04:05" : String).data ("12345678" : String).data
      ("Z" : String).data '9').2.2 (by decide) (by decide) (by decide) (by decide)⟩

/-- Claim C6: splitting a raw line fails with the missing-timestamp error
exactly when the line contains no space; a line with a space is split on
its first space into timestamp and content, as on the example line; and a
line that fails to split is not dropped by consumeLine but emitted with the
error marker before the original line, with the state unchanged. -/
theorem claim6_splitLogLine (line : String) (A B : List Char)
    (o : TailModelOptions) (st : TailState) :
    (splitLogLine line = Except.error "missing timestamp" ↔ ∀ x ∈ line.data, x ≠ ' ')
  ∧ (line.data = A ++ ' ' :: B → (∀ x ∈ A, x ≠ ' ') →
      splitLogLine line = Except.ok (String.mk A, String.mk B))
  ∧ splitLogLine "2024-01-02T03:04:05.0Z hello" =
      Except.ok ("2024-01-02T03:04:05.0Z", "hello")
  ∧ ((∀ x ∈ line.data, x ≠ ' ') →
      consumeLine o st line =
        (st, [Event.printNoHi ("[missing timestamp] " ++ line)])) := by
  refine ⟨?_, fun hd hA => splitLogLine_split line A B hd hA, by rfl, ?_⟩
  · constructor
    · intro he
      rcases hidx : indexOfRune ' ' line.data with _ | idx
      · exact (indexOfRune_eq_none ' ' line.data).mp hidx
      · unfold splitLogLine at he
        rw [hidx] at he
        simp at he
    · exact splitLogLine_no_space line
  · intro hns
    have hsp := splitLogLine_no_space line hns
    unfold consumeLine
    rw [hsp]
    show (st, [Event.printNoHi ("[" ++ "missing timestamp" ++ "] " ++ line)]) =
      (st, [Event.printNoHi ("[missing timestamp] " ++ line)])
    rw [show ("[" ++ "missing timestamp" ++ "] " : String) = "[missing timestamp] "
      from by decide]

/-- Claim C6 witness, on a space-free line fed to a fresh Tail that filters
nothing. -/
theorem claim6_witness :
    (∀ x ∈ ("not-a-valid-line" : String).data, x ≠ ' ')
  ∧ consumeLine passAllOptions initialTailState "not-a-valid-line" =
      (initialTailState,
       [Event.printNoHi ("[missing timestamp] " ++ "not-a-valid-line")]) :=
  ⟨by decide,
   (claim6_splitLogLine "not-a-valid-line" [] [] passAllOptions
      initialTailState).2.2.2 (by decide)⟩

/-- Claim C7: on every line that splits, consumeLine calls
rememberLastTimestamp on the canonical timestamp exactly once, as its first
effect, before the resume-skip decision and the content filters take hold,
so the watermark advances even for lines later skipped or filtered, and the
skip decision consumes the installed request at the same canonical
timestamp; on a line that fails to split, the state is untouched and no
observation happens. -/
theorem claim7_observe_order (o : TailModelOptions) (st : TailState) (line : String) :
    (∀ ts content, splitLogLine line = Except.ok (ts, content) →
      ((consumeLine o st line).2.head? = some (Event.observe (removeSubsecond ts))
       ∧ (consumeLine o st line).2.countP Event.isObserve = 1
       ∧ (consumeLine o st line).1.last =
           rememberLastTimestamp st.last (removeSubsecond ts)
       ∧ (consumeLine o st line).1.resumeRequest =
           (ResumeRequest.shouldSkip st.resumeRequest (removeSubsecond ts)).2))
  ∧ (∀ e, splitLogLine line = Except.error e →
      ((consumeLine o st line).1 = st
       ∧ (consumeLine o st line).2.countP Event.isObserve = 0)) := by
  constructor
  · intro ts content hok
    simp only [consumeLine, hok]
    by_cases hsk : (ResumeRequest.shouldSkip st.resumeRequest (removeSubsecond ts)).1
    · simp [hsk, Event.isObserve]
    · by_cases hf : (o.isExclude content || !o.isInclude content) = true
      · simp [hsk, hf, Event.isObserve]
      · by_cases hts : o.timestamps
        · rcases hu : o.updateTimezoneAndFormat ts with e2 | uts
          · cases hb : (o.otelEnabled && o.otelExporterPresent) <;>
              simp [hsk, hf, hts, hu, hb, Event.isObserve,
                List.countP_cons, List.countP_append]
          · cases hb : (o.otelEnabled && o.otelExporterPresent) <;>
              cases ho : o.otelEnabled <;>
              simp [hsk, hf, hts, hu, hb, ho, Event.isObserve,
                List.countP_cons, List.countP_append]
        · cases hb : (o.otelEnabled && o.otelExporterPresent) <;>
            cases ho : o.otelEnabled <;>
            simp [hsk, hf, hts, hb, ho, Event.isObserve,
              List.countP_cons, List.countP_append]
  · intro e he
    simp [consumeLine, he, Event.isObserve]

/-- Claim C7 witness, on a well-formed line fed to a fresh Tail that
filters nothing. -/
theorem claim7_witness :
    splitLogLine "2024-01-02T03:04:05.0Z hello" =
      Except.ok ("2024-01-02T03:04:05.0Z", "hello")
  ∧ ((consumeLine passAllOptions initialTailState
        "2024-01-02T03:04:05.0Z hello").2.head? =
        some (Event.observe (removeSubsecond "2024-01-02T03:04:05.0Z"))
     ∧ (consumeLine passAllOptions initialTailState
          "2024-01-02T03:04:05.0Z hello").2.countP Event.isObserve = 1
     ∧ (consumeLine passAllOptions initialTailState
          "2024-01-02T03:04:05.0Z hello").1.last =
         rememberLastTimestamp initialTailState.last
           (removeSubsecond "2024-01-02T03:04:05.0Z")
     ∧ (consumeLine passAllOptions initialTailState
          "2024-01-02T03:04:05.0Z hello").1.resumeRequest =
         (ResumeRequest.shouldSkip initialTailState.resumeRequest
            (removeSubsecond "2024-01-02T03:04:05.0Z")).2) :=
  ⟨by rfl,
   (claim7_observe_order passAllOptions initialTailState
      "2024-01-02T03:04:05.0Z hello").1 "2024-01-02T03:04:05.0Z" "hello" (by rfl)⟩

/-- Claim C8: when the resume request timestamp parses, Resume installs the
request and rewrites the options so that the stream is opened with the
since bound set to the parsed watermark timestamp and with tailLines and
sinceSeconds cleared; and the resume token a Tail produces carries exactly
its current watermark whenever one exists (the empty stored timestamp marks
the no-watermark initial state and yields no token). -/
theorem claim8_resume_options {τ : Type} (parse : String → Option τ)
    (opts : TailOptionsLog τ) (installed : Option ResumeRequest)
    (r : ResumeRequest) (tm : τ) (hp : parse r.Timestamp = some tm)
    (container : String) (s : LastState) (hs : s.timestamp ≠ "") :
    ((Resume parse opts installed r).1.SinceTime = some tm
      ∧ (Resume parse opts installed r).1.SinceSeconds = none
      ∧ (Resume parse opts installed r).1.TailLines = none
      ∧ (Resume parse opts installed r).2.1 = some r
      ∧ (Resume parse opts installed r).2.2 = false)
  ∧ ((startPodLogOptions container (Resume parse opts installed r).1).SinceTime =
        some tm
      ∧ (startPodLogOptions container (Resume parse opts installed r).1).SinceSeconds =
          none
      ∧ (startPodLogOptions container (Resume parse opts installed r).1).TailLines =
          none
      ∧ (startPodLogOptions container (Resume parse opts installed r).1).Timestamps =
          true)
  ∧ GetResumeRequest s = some ⟨s.timestamp, s.lines⟩ := by
  have hr : Resume parse opts installed r =
      ({ opts with SinceTime := some tm, SinceSeconds := none, TailLines := none },
       some r, false) := by
    unfold Resume ResumeRequest.sinceTime
    rw [hp]
  rw [hr]
  refine ⟨⟨rfl, rfl, rfl, rfl, rfl⟩, ⟨rfl, rfl, rfl, rfl⟩, ?_⟩
  unfold GetResumeRequest
  rw [if_neg hs]

/-- Claim C8 witness, resuming from the watermark at timestamp
2024-01-02T03:04:05Z with three lines seen. -/
theorem claim8_witness :
    (fun _ : String => some 7) "2024-01-02T03:04:05Z" = some 7
  ∧ ("2024-01-02T03:04:05Z" : String) ≠ ""
  ∧ (Resume (fun _ : String => some 7)
        (⟨true, some 60, none, some 10⟩ : TailOptionsLog Nat) none
        ⟨"2024-01-02T03:04:05Z", 3⟩).1.SinceTime = some 7
  ∧ GetResumeRequest ⟨"2024-01-02T03:04:05Z", 3⟩ =
      some ⟨"2024-01-02T03:04:05Z", 3⟩ :=
  ⟨rfl, by decide,
   ((claim8_resume_options (fun _ : String => some 7) ⟨true, some 60, none, some 10⟩
      none ⟨"2024-01-02T03:04:05Z", 3⟩ 7 rfl "app"
      ⟨"2024-01-02T03:04:05Z", 3⟩ (by decide)).1).1,
   (claim8_resume_options (fun _ : String => some 7) ⟨true, some 60, none, some 10⟩
      none ⟨"2024-01-02T03:04:05Z", 3⟩ 7 rfl "app"
      ⟨"2024-01-02T03:04:05Z", 3⟩ (by decide)).2.2⟩

/-- Claim C10: when the resume request timestamp does not parse, Resume
writes the failure note, leaves the options untouched, derives no since
bound, installs no request, and falls back to a plain Start, so with the
initial nil request no line of the restarted stream is ever skipped. -/
theorem claim10_resume_fallback {τ : Type} (parse : String → Option τ)
    (opts : TailOptionsLog τ) (r : ResumeRequest) (container : String)
    (hp : parse r.Timestamp = none) :
    Resume parse opts none r = (opts, none, true)
  ∧ startPodLogOptions container (Resume parse opts none r).1 =
      startPodLogOptions container opts
  ∧ (∀ ts, ResumeRequest.shouldSkip (Resume parse opts none r).2.1 ts =
      (false, none)) := by
  have hr : Resume parse opts none r = (opts, none, true) := by
    unfold Resume ResumeRequest.sinceTime
    rw [hp]
  refine ⟨hr, by rw [hr], ?_⟩
  intro ts
  rw [hr]
  rfl

/-- Claim C10 witness, resuming with a timestamp the parser rejects. -/
theorem claim10_witness :
    (fun _ : String => (none : Option Nat)) "not-a-timestamp" = none
  ∧ Resume (fun _ : String => (none : Option Nat))
      (⟨true, some 60, some 5, some 10⟩ : TailOptionsLog Nat) none
      ⟨"not-a-timestamp", 2⟩ =
      (⟨true, some 60, some 5, some 10⟩, none, true) :=
  ⟨rfl,
   (claim10_resume_fallback (fun _ : String => (none : Option Nat))
      ⟨true, some 60, some 5, some 10⟩ ⟨"not-a-timestamp", 2⟩ "app" rfl).1⟩

end Stern

